import Mathlib

/-!
Verification of the augmentation pipeline of `augmentations.py`
(Text_Detector repository).

The transforms operate on a triple (image, geometry, labels):
  * the image is a height x width raster of 3-channel pixels
    (`List (List Pix)`, row-major, each pixel a triple of channel values);
  * geometry is a row-per-object matrix of coordinates
    (`List (List ℚ)`, each row 4 box coordinates or 8 polygon coordinates);
  * labels are one integer class id per geometry row (`List ℤ`).

Pixel and coordinate arithmetic is embedded over ℚ (exact arithmetic in
place of numpy float arrays); numpy-specific behaviour that the claims
depend on — extended slices, broadcasting of a 1-D vector against the
rows of a 2-D array, masked assignment — is modelled explicitly, with
broadcasting failures surfacing as `Option.none`.

Randomness: every random draw of the source (`random.randint(2)` coins,
`random.uniform` values, the chosen crop mode and the accepted crop
rectangle of a retry loop) is threaded as an explicit parameter, so each
`__call__` becomes a deterministic function of (draws, inputs).
-/

namespace Augment

/-- One 3-channel pixel value (B,G,R or H,S,V depending on pipeline stage). -/
abbrev Pix := ℚ × ℚ × ℚ

/-- A raster image: rows of pixels, height x width x 3. -/
abbrev Image := List (List Pix)

/-- Geometry matrix: one row of coordinates per object. -/
abbrev Geom := List (List ℚ)

/-- Labels: one integer class id per geometry row. -/
abbrev Labels := List ℤ

/-- Image width as read from `image.shape`: length of the first row. -/
def width (img : Image) : ℕ := (img.headD []).length

/-- Image height as read from `image.shape`: the number of rows. -/
def height (img : Image) : ℕ := img.length

/-- Pixel lookup at (row, col), with an all-zero default out of bounds. -/
def getPx (img : Image) (i j : ℕ) : Pix := (img.getD i []).getD j (0, 0, 0)

/-- Apply a function to all three channels of a pixel. -/
def pixMap (f : ℚ → ℚ) (p : Pix) : Pix := (f p.1, f p.2.1, f p.2.2)

/-- Apply a scalar function to every channel value of every pixel
(numpy elementwise arithmetic on the whole array). -/
def imgMap (f : ℚ → ℚ) (img : Image) : Image :=
  img.map (fun row => row.map (pixMap f))

/-- `image[image>255] = 255` followed by `image[image<0] = 0` on one value. -/
def clip255 (x : ℚ) : ℚ :=
  let x1 := if x > 255 then 255 else x
  if x1 < 0 then 0 else x1

/-- Clip every channel value of the image into [0, 255]. -/
def clipImg (img : Image) : Image := imgMap clip255 img

/-- `np.clip(im, 0., 255.)` from the end of `PhotometricDistort.__call__`:
elementwise clamp, identical pointwise to the masked-assignment clip. -/
def npClip0255 (img : Image) : Image := imgMap clip255 img

/-- The membership predicate "every channel value of the image lies in
[0, 255]". -/
def pixIn255 (img : Image) : Prop :=
  ∀ row ∈ img, ∀ p ∈ row, (0 ≤ p.1 ∧ p.1 ≤ 255) ∧
    (0 ≤ p.2.1 ∧ p.2.1 ≤ 255) ∧ (0 ≤ p.2.2 ∧ p.2.2 ≤ 255)

/-- `RandomBrightness.__call__` with the coin and the drawn delta explicit:
if the coin fires, add the delta to every channel value and clip to
[0, 255]; otherwise return the image unchanged. -/
def randomBrightness (coin : Bool) (delta : ℚ) (img : Image) : Image :=
  if coin then clipImg (imgMap (· + delta) img) else img

/-- `RandomContrast.__call__` with the coin and the drawn factor explicit:
if the coin fires, multiply every channel value by alpha and clip to
[0, 255]; otherwise return the image unchanged. -/
def randomContrast (coin : Bool) (alpha : ℚ) (img : Image) : Image :=
  if coin then clipImg (imgMap (· * alpha) img) else img

/-- The hue wrap of `RandomHue.__call__`: values above 360 are lowered by
360, then values below 0 are raised by 360 (sequential masked updates). -/
def wrap360 (x : ℚ) : ℚ :=
  let x1 := if x > 360 then x - 360 else x
  if x1 < 0 then x1 + 360 else x1

/-- `RandomHue.__call__` with the coin and drawn delta explicit: if the
coin fires, shift channel 0 of every pixel by delta and wrap it; channels
1 and 2 are untouched. -/
def randomHue (coin : Bool) (delta : ℚ) (img : Image) : Image :=
  if coin then
    img.map (fun row => row.map (fun p => (wrap360 (p.1 + delta), p.2.1, p.2.2)))
  else img

/-- "Hue channel lies in [0, 360)" — the range the claim asserts. -/
def hueLt360 (img : Image) : Prop := ∀ row ∈ img, ∀ p ∈ row, 0 ≤ p.1 ∧ p.1 < 360

/-- "Hue channel lies in [0, 360]" — the range the wrap actually gives. -/
def hueIn360 (img : Image) : Prop := ∀ row ∈ img, ∀ p ∈ row, 0 ≤ p.1 ∧ p.1 ≤ 360

/-- The (image, geometry, labels) triple threaded through every transform.
Geometry and labels are optional (absent in the inference pipeline). -/
abbrev Triple := Image × Option Geom × Option Labels

/-- `Compose.__call__`: thread the triple through each transform in order
(`for t in self.transforms: img, boxes, labels = t(img, boxes, labels)`). -/
def Compose (ts : List (Triple → Triple)) (t : Triple) : Triple :=
  ts.foldl (fun acc f => f acc) t

/-- `RandomBrightness` as a transform unit: acts on the image only. -/
def brightnessT (coin : Bool) (delta : ℚ) : Triple → Triple :=
  fun t => (randomBrightness coin delta t.1, t.2.1, t.2.2)

/-- `RandomContrast` as a transform unit: acts on the image only. -/
def contrastT (coin : Bool) (alpha : ℚ) : Triple → Triple :=
  fun t => (randomContrast coin alpha t.1, t.2.1, t.2.2)

/-- `RandomHue` as a transform unit: acts on the image only. -/
def hueT (coin : Bool) (delta : ℚ) : Triple → Triple :=
  fun t => (randomHue coin delta t.1, t.2.1, t.2.2)

/-- `ConvertColor` as a transform unit.  The colour-space conversion
itself is `cv2.cvtColor`, an external library routine, so the transform
is parametrised by the conversion function it applies to the image. -/
def convertT (cvt : Image → Image) : Triple → Triple :=
  fun t => (cvt t.1, t.2.1, t.2.2)

/-- The `self.pd` list of `PhotometricDistort.__init__`:
[RandomContrast, ConvertColor(BGR→HSV), RandomHue, ConvertColor(HSV→BGR),
RandomContrast].  The two `RandomContrast` instances draw independently,
so each carries its own coin and factor; the conversions are the external
`cv2.cvtColor` routines passed in as functions. -/
def pdList (c1 : Bool) (a1 : ℚ) (ch : Bool) (dh : ℚ) (c2 : Bool) (a2 : ℚ)
    (bgr2hsv hsv2bgr : Image → Image) : List (Triple → Triple) :=
  [contrastT c1 a1, convertT bgr2hsv, hueT ch dh, convertT hsv2bgr, contrastT c2 a2]

/-- `PhotometricDistort.__call__` with all draws explicit: brightness
first, then `Compose(self.pd[:-1])` when the order coin fires and
`Compose(self.pd[1:])` otherwise, then `np.clip(im, 0., 255.)` on the
image.  (`self.rand_light_noise` is commented out in the source.) -/
def photometricDistort (cb : Bool) (db : ℚ) (c1 : Bool) (a1 : ℚ)
    (ch : Bool) (dh : ℚ) (c2 : Bool) (a2 : ℚ) (order : Bool)
    (bgr2hsv hsv2bgr : Image → Image) (t : Triple) : Triple :=
  let t1 := brightnessT cb db t
  let pd := pdList c1 a1 ch dh c2 a2 bgr2hsv hsv2bgr
  let t2 := if order then Compose pd.dropLast t1 else Compose pd.tail t1
  (npClip0255 t2.1, t2.2.1, t2.2.2)

/-- Column indices selected by the numpy slice `0::2` on an array with
`cols` columns: 0, 2, 4, ... -/
def evenIndices (cols : ℕ) : List ℕ := (List.range cols).filter (fun i => i % 2 = 0)

/-- Column indices selected by the numpy slice `2::-2` on an array with
`cols` columns: start at `min 2 (cols-1)` and step down by 2. -/
def slice2RevIdx (cols : ℕ) : List ℕ :=
  if cols = 0 then []
  else
    let s := min 2 (cols - 1)
    (List.range (s / 2 + 1)).map (fun k => s - 2 * k)

/-- Positional assignment `row[dst[k]] := vals[k]` (the right-hand side is
fully evaluated before numpy stores it, so the update is simultaneous). -/
def assignAt (row : List ℚ) (dst : List ℕ) (vals : List ℚ) : List ℚ :=
  (dst.zip vals).foldl (fun r iv => r.set iv.1 iv.2) row

/-- One row of `boxes[:, 0::2] = width - boxes[:, 2::-2]`: write
`width - row[i]` for `i` in the `2::-2` slice into the `0::2` columns
(with the length-1 broadcast case replicated across the destination). -/
def mirrorRow (w : ℚ) (cols : ℕ) (row : List ℚ) : List ℚ :=
  let dst := evenIndices cols
  let vals := (slice2RevIdx cols).map (fun i => w - row.getD i 0)
  let vals := if vals.length = 1 then List.replicate dst.length (vals.getD 0 0) else vals
  assignAt row dst vals

/-- `boxes[:, 0::2] = width - boxes[:, 2::-2]` on the whole matrix: numpy
first checks that the right-hand side broadcasts against the destination
slice (equal column count, or a single source column); on a mismatch the
assignment raises, modelled as `none`. -/
def mirrorBoxes (w : ℚ) (cols : ℕ) (rows : Geom) : Option Geom :=
  let nd := (evenIndices cols).length
  let ns := (slice2RevIdx cols).length
  if ns = nd ∨ ns = 1 then some (rows.map (mirrorRow w cols)) else none

/-- `RandomMirror.__call__` with the coin explicit: when the coin fires,
flip the image horizontally (`image[:, ::-1]`) and remap the boxes'
x-columns; the box assignment can raise (shape mismatch), modelled as
`none`.  `cols` is the geometry matrix's column count. -/
def randomMirrorCall (coin : Bool) (cols : ℕ) (img : Image) (boxes : Geom)
    (classes : Labels) : Option (Image × Geom × Labels) :=
  if coin then
    match mirrorBoxes (width img) cols boxes with
    | some bs => some (img.map List.reverse, bs, classes)
    | none => none
  else some (img, boxes, classes)

/-- An axis-aligned rectangle / 4-coordinate box (x1, y1, x2, y2). -/
structure Box where
  x1 : ℚ
  y1 : ℚ
  x2 : ℚ
  y2 : ℚ
deriving DecidableEq

/-- `image[rect[1]:rect[3], rect[0]:rect[2], :]`: keep rows y1..y2-1 and
columns x1..x2-1 (the rect's entries are nonnegative integers). -/
def cropImg (x1 y1 x2 y2 : ℕ) (img : Image) : Image :=
  ((img.drop y1).take (y2 - y1)).map (fun row => (row.drop x1).take (x2 - x1))

/-- The TextBoxes-SSD mask of `RandomSampleCrop.__call__`:
`m1 = (rect[0] < boxes[:,2]) * (rect[1] < boxes[:,3])`,
`m2 = (rect[2] > boxes[:,0]) * (rect[3] > boxes[:,1])`, `mask = m1 * m2`. -/
def cropMask (r : Box) (boxes : List Box) : List Bool :=
  boxes.map (fun b =>
    (decide (r.x1 < b.x2) && decide (r.y1 < b.y2)) &&
    (decide (r.x2 > b.x1) && decide (r.y2 > b.y1)))

/-- Boolean-mask row selection, `arr[mask]`: keep the entries whose mask
bit is set, in order. -/
def selectMask : List Bool → List α → List α
  | [], _ => []
  | _, [] => []
  | b :: m, x :: xs => if b then x :: selectMask m xs else selectMask m xs

/-- The coordinate adjustment of `RandomSampleCrop.__call__`: clamp the
top-left corner up to the rect's, clamp the bottom-right corner down to
the rect's, and subtract the rect's top-left from both corners. -/
def adjustBox (r : Box) (b : Box) : Box :=
  { x1 := max b.x1 r.x1 - r.x1
    y1 := max b.y1 r.y1 - r.y1
    x2 := min b.x2 r.x2 - r.x1
    y2 := min b.y2 r.y2 - r.y1 }

/-- The success branch of `RandomSampleCrop.__call__` (rect sampled,
aspect/overlap guards passed, mask nonempty): crop the image, keep the
masked boxes and the masked labels, adjust the kept boxes to the crop. -/
def randomSampleCropSuccess (rx1 ry1 rx2 ry2 : ℕ) (img : Image)
    (boxes : List Box) (labels : Labels) : Image × List Box × Labels :=
  let rect : Box := ⟨(rx1 : ℚ), (ry1 : ℚ), (rx2 : ℚ), (ry2 : ℚ)⟩
  let mask := cropMask rect boxes
  (cropImg rx1 ry1 rx2 ry2 img,
   (selectMask mask boxes).map (adjustBox rect),
   selectMask mask labels)

/-- Map with the element's position, from a given start index. -/
def mapIdxFrom (f : ℕ → α → β) : ℕ → List α → List β
  | _, [] => []
  | i, x :: xs => f i x :: mapIdxFrom f (i + 1) xs

/-- `row[:lim] -= [l, t] * (lim / 2)`: subtract `l` from even-indexed and
`t` from odd-indexed coordinates among the first `lim` entries. -/
def subTiled (l t : ℚ) (lim : ℕ) (row : List ℚ) : List ℚ :=
  mapIdxFrom (fun k x => if k < lim then x - (if k % 2 = 0 then l else t) else x) 0 row

/-- Every other element of a list, starting with the first (the `::2`
slice). -/
def everyOther : List ℚ → List ℚ
  | [] => []
  | [x] => [x]
  | x :: _ :: xs => x :: everyOther xs

/-- Python's `min` over a nonempty list (head default for totality). -/
def listMin (l : List ℚ) : ℚ := l.foldl min (l.headD 0)

/-- Python's `max` over a nonempty list (head default for totality). -/
def listMax (l : List ℚ) : ℚ := l.foldl max (l.headD 0)

/-- One row of `boxes_rect` in `RandomSampleCropPoly.__call__`:
`[min(row[::2]), min(row[1::2]), max(row[::2]), max(row[1::2])]`. -/
def rowRect (row : List ℚ) : List ℚ :=
  [listMin (everyOther row), listMin (everyOther row.tail),
   listMax (everyOther row), listMax (everyOther row.tail)]

/-- The per-object bounding rectangles of `RandomSampleCropPoly`. -/
def boxesRect (boxes : Geom) : Geom := boxes.map rowRect

/-- The success branch of `RandomSampleCropPoly.__call__` (a mode with
thresholds was drawn, a rect passed the aspect and containment-count
guards): crop the image and translate the first `2*(cols/2)` coordinates
of every row by the crop origin, tiled `(left, top)` per pair — no row is
filtered, no coordinate clipped, and the labels are returned as-is. -/
def cropPolySuccess (rx1 ry1 rx2 ry2 cols : ℕ) (img : Image)
    (boxes : Geom) (labels : Labels) : Image × Geom × Labels :=
  (cropImg rx1 ry1 rx2 ry2 img,
   boxes.map (subTiled (rx1 : ℚ) (ry1 : ℚ) (2 * (cols / 2))),
   labels)

/-- `RandomSampleCropPoly.__call__` with the drawn mode and the accepted
rect explicit: compute `boxes_rect`; if the drawn mode is the
entire-image mode (`None`) or `boxes_rect` is empty, return the triple
unchanged; otherwise resolve to the success branch with the accepted
rect.  `cols` is the geometry matrix's column count. -/
def cropPolyCall (mode : Option (Option ℚ × Option ℚ))
    (rx1 ry1 rx2 ry2 cols : ℕ) (img : Image) (boxes : Geom)
    (labels : Labels) : Image × Geom × Labels :=
  if mode = none ∨ boxesRect boxes = [] then (img, boxes, labels)
  else cropPolySuccess rx1 ry1 rx2 ry2 cols img boxes labels

/-- `np.tile(v, 4)`: the vector repeated four times. -/
def tile4 (v : List ℚ) : List ℚ := v ++ v ++ v ++ v

/-- numpy broadcast multiplication of an `(n, cols)` matrix with a 1-D
vector `v`: elementwise along rows when `cols = len(v)`; a single matrix
column or a single vector entry broadcasts; any other shape pair raises
(ValueError), modelled as `none`. -/
def npMulVec (cols : ℕ) (rows : Geom) (v : List ℚ) : Option Geom :=
  if cols = v.length then some (rows.map (fun r => r.zipWith (· * ·) v))
  else if cols = 1 then some (rows.map (fun r => v.map (fun s => r.getD 0 0 * s)))
  else if v.length = 1 then some (rows.map (fun r => r.map (fun x => x * v.getD 0 0)))
  else none

/-- `Resize.__call__`: when geometry is present, multiply it by
`np.tile([size/w, size/h], 4)` (an 8-entry vector), then resize the image
to `(size, size)`.  The image resampling itself is `cv2.resize`, an
external library routine passed in as a function; a geometry broadcast
failure raises, modelled as `none`.  `cols` is the geometry matrix's
column count. -/
def resizeCall (cvResize : Image → ℕ → Image) (size : ℕ) (img : Image)
    (boxes : Option Geom) (cols : ℕ) (labels : Option Labels) :
    Option (Image × Option Geom × Option Labels) :=
  let w := width img
  let h := height img
  match boxes with
  | none => some (cvResize img size, none, labels)
  | some bs =>
    (npMulVec cols bs (tile4 [(size : ℚ) / w, (size : ℚ) / h])).map
      (fun bs2 => (cvResize img size, some bs2, labels))

/-- `row[:lim] += [l, t] * (lim / 2)`: add `l` to even-indexed and `t` to
odd-indexed coordinates among the first `lim` entries. -/
def addTiled (l t : ℚ) (lim : ℕ) (row : List ℚ) : List ℚ :=
  mapIdxFrom (fun k x => if k < lim then x + (if k % 2 = 0 then l else t) else x) 0 row

/-- The canvas built by `Expand.__call__`: an `eh x ew` buffer filled with
the mean pixel, with the original image pasted at offset (top, left)
(`expand_image[top:top+h, left:left+w] = image`; the draws guarantee the
image fits inside the canvas). -/
def expandCanvas (eh ew top left : ℕ) (mean : Pix) (img : Image) : Image :=
  (List.range eh).map (fun i => (List.range ew).map (fun j =>
    if top ≤ i ∧ i < top + height img ∧ left ≤ j ∧ j < left + width img
    then getPx img (i - top) (j - left) else mean))

/-- `Expand.__call__` with the coin and draws explicit: when the coin
fires, a no-op; otherwise build the mean-filled canvas of size
`(int(h*ratio), int(w*ratio))`, paste the image at the (already
truncated) offset `(top, left)`, and add `[left, top]`, tiled per
coordinate pair, to the first `2*(cols/2)` entries of every geometry
row.  `cols` is the geometry matrix's column count. -/
def expandCall (coin : Bool) (ratio : ℚ) (left top : ℕ) (mean : Pix)
    (cols : ℕ) (img : Image) (boxes : Geom) (labels : Labels) :
    Image × Geom × Labels :=
  if coin then (img, boxes, labels)
  else
    let eh := (Int.floor ((height img : ℚ) * ratio)).toNat
    let ew := (Int.floor ((width img : ℚ) * ratio)).toNat
    (expandCanvas eh ew top left mean img,
     boxes.map (addTiled (left : ℚ) (top : ℚ) (2 * (cols / 2))),
     labels)

/-- Channel accessor for the (channel, height, width) view. -/
def chan (c : Fin 3) (p : Pix) : ℚ :=
  match c with
  | 0 => p.1
  | 1 => p.2.1
  | 2 => p.2.2

/-- `permute(2, 0, 1)`: reorder the image from (height, width, channel)
to (channel, height, width). -/
def permuteCHW (img : Image) : List (List (List ℚ)) :=
  [img.map (fun row => row.map (fun p => p.1)),
   img.map (fun row => row.map (fun p => p.2.1)),
   img.map (fun row => row.map (fun p => p.2.2))]

/-- `ToTensor.__call__`: permute the image to channel-first; when
geometry is absent return `(tensor, None, None)`; when geometry is
present convert geometry and labels with `torch.from_numpy`, which keeps
their contents (and raises on an absent labels array, modelled as
`none`). -/
def toTensorCall (img : Image) (boxes : Option Geom)
    (labels : Option Labels) :
    Option (List (List (List ℚ)) × Option Geom × Option Labels) :=
  match boxes with
  | none => some (permuteCHW img, none, none)
  | some bs =>
    match labels with
    | some ls => some (permuteCHW img, some bs, some ls)
    | none => none

end Augment

namespace Augment

theorem clip255_mem (x : ℚ) : 0 ≤ clip255 x ∧ clip255 x ≤ 255 := by
  simp only [clip255]
  split <;> split <;> constructor <;> simp_all

theorem pixIn255_clipImg (img : Image) : pixIn255 (clipImg img) := by
  intro row hrow p hp
  simp only [clipImg, imgMap, List.mem_map] at hrow
  obtain ⟨row0, _, rfl⟩ := hrow
  simp only [List.mem_map] at hp
  obtain ⟨p0, _, rfl⟩ := hp
  refine ⟨⟨?_, ?_⟩, ⟨?_, ?_⟩, ⟨?_, ?_⟩⟩ <;>
    first
      | exact (clip255_mem p0.1).1
      | exact (clip255_mem p0.1).2
      | exact (clip255_mem p0.2.1).1
      | exact (clip255_mem p0.2.1).2
      | exact (clip255_mem p0.2.2).1
      | exact (clip255_mem p0.2.2).2

theorem wrap360_mem (x : ℚ) (h0 : 0 ≤ x) (h1 : x ≤ 360) (d : ℚ)
    (hd0 : -360 ≤ d) (hd1 : d ≤ 360) :
    0 ≤ wrap360 (x + d) ∧ wrap360 (x + d) ≤ 360 := by
  simp only [wrap360]
  split <;> split <;> constructor <;> simp_all <;> linarith

/-- C5: `PhotometricDistort` applies `RandomBrightness` first; when the
order coin fires it then applies [RandomContrast, BGR→HSV convert,
RandomHue, HSV→BGR convert] (the first contrast instance), otherwise
[BGR→HSV convert, RandomHue, HSV→BGR convert, RandomContrast] (the second
contrast instance) — contrast exactly once, before or after the hue
jitter — and every channel value of the returned image lies in [0,255];
geometry and labels pass through untouched. -/
theorem photometricDistort_structure (cb : Bool) (db : ℚ) (c1 : Bool) (a1 : ℚ)
    (ch : Bool) (dh : ℚ) (c2 : Bool) (a2 : ℚ) (order : Bool)
    (bgr2hsv hsv2bgr : Image → Image) (t : Triple) :
    photometricDistort cb db c1 a1 ch dh c2 a2 order bgr2hsv hsv2bgr t =
      (if order then
        npClip0255 (hsv2bgr (randomHue ch dh (bgr2hsv
          (randomContrast c1 a1 (randomBrightness cb db t.1)))))
      else
        npClip0255 (randomContrast c2 a2 (hsv2bgr (randomHue ch dh
          (bgr2hsv (randomBrightness cb db t.1)))))
      , t.2.1, t.2.2) ∧
    pixIn255 (photometricDistort cb db c1 a1 ch dh c2 a2 order
      bgr2hsv hsv2bgr t).1 := by
  constructor
  · cases order <;>
      simp [photometricDistort, pdList, Compose, brightnessT, contrastT,
        hueT, convertT]
  · cases order <;>
      exact pixIn255_clipImg _

/-- C6 counterexample: the claim fails at concrete inputs.  With the skip
draw, `RandomBrightness` returns a channel value 300 unclipped, so the
output is not within [0,255] for every input image and draw; and
`RandomHue` with the active draw, delta 30 and input hue 330 produces hue
exactly 360 (330 + 30 = 360 triggers neither wrap mask), which is not in
[0,360). -/
theorem photometric_range_counterexample :
    ¬ pixIn255 (randomBrightness false 0 [[((300 : ℚ), 0, 0)]]) ∧
    ¬ hueLt360 (randomHue true 30 [[((330 : ℚ), 1, 1)]]) := by
  constructor
  · intro h
    have := h [((300 : ℚ), 0, 0)] (by simp [randomBrightness])
      ((300 : ℚ), 0, 0) (by simp)
    norm_num at this
  · intro h
    have := h [((360 : ℚ), 1, 1)]
      (by simp [randomHue, wrap360]; norm_num)
      ((360 : ℚ), 1, 1) (by simp)
    norm_num at this

/-- C6 amended: for any random draw, `RandomBrightness` and
`RandomContrast` return all channel values in [0,255] provided the input
image's values are in [0,255] (the active branch clips, the skip branch
passes the in-range input through), and `RandomHue`, given input hue
values in the valid HSV range [0,360] and any drawn delta in [-360,360],
returns hue values in the closed interval [0,360] (the bound 360 is
attained, so the interval cannot be half-open) after wrapping values
above 360 down by 360 and values below 0 up by 360. -/
theorem photometric_ranges (cb : Bool) (db : ℚ) (imgB : Image)
    (hB : pixIn255 imgB) (cc : Bool) (ac : ℚ) (imgC : Image)
    (hC : pixIn255 imgC) (chue : Bool) (dh : ℚ) (imgH : Image)
    (hH : hueIn360 imgH) (hd0 : -360 ≤ dh) (hd1 : dh ≤ 360) :
    pixIn255 (randomBrightness cb db imgB) ∧
    pixIn255 (randomContrast cc ac imgC) ∧
    hueIn360 (randomHue chue dh imgH) := by
  refine ⟨?_, ?_, ?_⟩
  · cases cb
    · exact hB
    · exact pixIn255_clipImg _
  · cases cc
    · exact hC
    · exact pixIn255_clipImg _
  · cases chue
    · exact hH
    · intro row hrow p hp
      simp only [randomHue, if_pos, List.mem_map] at hrow
      obtain ⟨row0, hrow0, rfl⟩ := hrow
      simp only [List.mem_map] at hp
      obtain ⟨p0, hp0, rfl⟩ := hp
      exact wrap360_mem p0.1 (hH row0 hrow0 p0 hp0).1 (hH row0 hrow0 p0 hp0).2
        dh hd0 hd1

/-- C6 amended, witness at concrete inputs. -/
theorem photometric_ranges_witness :
    pixIn255 (randomBrightness true 5 [[((100 : ℚ), 0, 0)]]) ∧
    pixIn255 (randomContrast true (3/2) [[((100 : ℚ), 0, 0)]]) ∧
    hueIn360 (randomHue true 30 [[((330 : ℚ), 1, 1)]]) :=
  photometric_ranges true 5 _
    (by intro row hrow p hp; simp_all [pixIn255]; norm_num)
    true (3/2) _
    (by intro row hrow p hp; simp_all [pixIn255]; norm_num)
    true 30 _
    (by intro row hrow p hp; simp_all [hueIn360]; norm_num)
    (by norm_num) (by norm_num)

theorem evenIndices_four : evenIndices 4 = [0, 2] := by decide

theorem slice2RevIdx_four : slice2RevIdx 4 = [2, 0] := by decide

theorem mirrorRow_involutive (w : ℚ) (row : List ℚ) (h : row.length = 4) :
    mirrorRow w 4 (mirrorRow w 4 row) = row := by
  obtain ⟨a, b, c, d, rfl⟩ : ∃ a b c d, row = [a, b, c, d] := by
    rcases row with _ | ⟨a, _ | ⟨b, _ | ⟨c, _ | ⟨d, rest⟩⟩⟩⟩ <;> simp_all
  simp [mirrorRow, evenIndices_four, slice2RevIdx_four, assignAt]

/-- C7: on 4-coordinate boxes, when the flip branch fires on both
applications, `RandomMirror` is an involution: the x-remap succeeds
(the `0::2` and `2::-2` slices both have two columns) and applying it
twice returns the original image and the original boxes. -/
theorem randomMirror_involution (img : Image) (boxes : Geom) (cls : Labels)
    (h : ∀ r ∈ boxes, r.length = 4) :
    (randomMirrorCall true 4 img boxes cls).bind
      (fun t => randomMirrorCall true 4 t.1 t.2.1 t.2.2) =
    some (img, boxes, cls) := by
  have hw : width (img.map List.reverse) = width img := by
    rcases img with _ | ⟨r, rs⟩ <;> simp [width]
  have himg : (img.map List.reverse).map List.reverse = img := by
    rw [List.map_map]
    simp [Function.comp_def]
  have hboxes : (boxes.map (mirrorRow (width img) 4)).map
      (mirrorRow (width img) 4) = boxes := by
    rw [List.map_map]
    have h2 : ∀ r ∈ boxes,
        (mirrorRow (width img) 4 ∘ mirrorRow (width img) 4) r = id r :=
      fun r hr => mirrorRow_involutive _ r (h r hr)
    rw [List.map_congr_left h2, List.map_id]
  simp [randomMirrorCall, mirrorBoxes, evenIndices_four, slice2RevIdx_four,
    hw, himg, hboxes]

/-- C7 witness: the involution at a concrete image, box and label. -/
theorem randomMirror_involution_witness :
    (randomMirrorCall true 4 [[(1, 2, 3), (4, 5, 6)]]
        [[(0 : ℚ), 0, 1, 1]] [(0 : ℤ)]).bind
      (fun t => randomMirrorCall true 4 t.1 t.2.1 t.2.2) =
    some ([[(1, 2, 3), (4, 5, 6)]], [[(0 : ℚ), 0, 1, 1]], [(0 : ℤ)]) :=
  randomMirror_involution [[(1, 2, 3), (4, 5, 6)]] [[(0 : ℚ), 0, 1, 1]]
    [(0 : ℤ)] (by intro r hr; simp_all)

theorem evenIndices_eight : evenIndices 8 = [0, 2, 4, 6] := by decide

theorem slice2RevIdx_eight : slice2RevIdx 8 = [2, 0] := by decide

/-- C10: on 8-coordinate polygon geometry the flip branch of
`RandomMirror` fails: the destination slice `0::2` selects four columns
(0,2,4,6) while the source slice `2::-2` selects two (columns 2,0
reversed), a broadcast shape mismatch, so the call raises instead of
mirroring the polygons. -/
theorem randomMirror_poly_fails (img : Image) (boxes : Geom) (cls : Labels)
    (_h : ∀ r ∈ boxes, r.length = 8) :
    randomMirrorCall true 8 img boxes cls = none := by
  simp [randomMirrorCall, mirrorBoxes, evenIndices_eight, slice2RevIdx_eight]

/-- C10 witness: the failure at a concrete polygon array. -/
theorem randomMirror_poly_fails_witness :
    randomMirrorCall true 8 [[(1, 2, 3)]]
      [[(10 : ℚ), 10, 50, 10, 50, 50, 10, 50]] [(0 : ℤ)] = none :=
  randomMirror_poly_fails [[(1, 2, 3)]]
    [[(10 : ℚ), 10, 50, 10, 50, 50, 10, 50]] [(0 : ℤ)]
    (by intro r hr; simp_all)

theorem selectMask_length_eq (m : List Bool) :
    ∀ (xs : List α) (ys : List β), xs.length = ys.length →
      (selectMask m xs).length = (selectMask m ys).length := by
  induction m with
  | nil => intro xs ys _; simp [selectMask]
  | cons b m ih =>
    intro xs ys h
    cases xs with
    | nil =>
      cases ys with
      | nil => rfl
      | cons y ys => simp at h
    | cons x xs =>
      cases ys with
      | nil => simp at h
      | cons y ys =>
        simp only [selectMask]
        cases b <;> simp [ih xs ys (by simpa using h)]

theorem selectMask_zip (m : List Bool) :
    ∀ (xs : List α) (ys : List β), xs.length = ys.length →
      selectMask m (xs.zip ys) = (selectMask m xs).zip (selectMask m ys) := by
  induction m with
  | nil => intro xs ys _; simp [selectMask]
  | cons b m ih =>
    intro xs ys h
    cases xs with
    | nil =>
      cases ys with
      | nil => rfl
      | cons y ys => simp at h
    | cons x xs =>
      cases ys with
      | nil => simp at h
      | cons y ys =>
        simp only [List.zip_cons_cons, selectMask]
        cases b
        · simpa using ih xs ys (by simpa using h)
        · simpa using ih xs ys (by simpa using h)

/-- C1: geometry and labels never desynchronize.  The polygon cropper's
success branch keeps every geometry row and returns the labels unchanged;
the classical box cropper applies the same boolean mask to the boxes and
to the labels, so when the input row counts agree the output row counts
agree and the row-to-label pairing is the masked input pairing (boxes
adjusted to the crop, labels untouched). -/
theorem crop_row_label_sync (rx1 ry1 rx2 ry2 cols : ℕ) (img pimg : Image)
    (pboxes : Geom) (plabels : Labels) (boxes : List Box) (labels : Labels)
    (hlen : boxes.length = labels.length) :
    ((cropPolySuccess rx1 ry1 rx2 ry2 cols pimg pboxes plabels).2.1.length =
        pboxes.length ∧
      (cropPolySuccess rx1 ry1 rx2 ry2 cols pimg pboxes plabels).2.2 =
        plabels) ∧
    ((randomSampleCropSuccess rx1 ry1 rx2 ry2 img boxes labels).2.1.length =
        (randomSampleCropSuccess rx1 ry1 rx2 ry2 img boxes labels).2.2.length ∧
      (randomSampleCropSuccess rx1 ry1 rx2 ry2 img boxes labels).2.1.zip
          (randomSampleCropSuccess rx1 ry1 rx2 ry2 img boxes labels).2.2 =
        (selectMask (cropMask ⟨(rx1 : ℚ), (ry1 : ℚ), (rx2 : ℚ), (ry2 : ℚ)⟩ boxes)
            (boxes.zip labels)).map
          (Prod.map (adjustBox ⟨(rx1 : ℚ), (ry1 : ℚ), (rx2 : ℚ), (ry2 : ℚ)⟩) id)) := by
  refine ⟨⟨?_, rfl⟩, ?_, ?_⟩
  · simp [cropPolySuccess]
  · simp only [randomSampleCropSuccess, List.length_map]
    exact selectMask_length_eq _ _ _ hlen
  · simp only [randomSampleCropSuccess]
    rw [List.zip_map_left, ← selectMask_zip _ _ _ hlen]

/-- C1 witness: box/label synchronization at concrete inputs. -/
theorem crop_row_label_sync_witness :
    ((cropPolySuccess 5 5 45 45 8 [[(1, 1, 1)]]
        [[(10 : ℚ), 10, 50, 10, 50, 50, 10, 50]] [1]).2.1.length = 1 ∧
      (cropPolySuccess 5 5 45 45 8 [[(1, 1, 1)]]
        [[(10 : ℚ), 10, 50, 10, 50, 50, 10, 50]] [1]).2.2 = [1]) ∧
    ((randomSampleCropSuccess 5 5 45 45 [[(1, 1, 1)]]
        [⟨0, 0, 10, 10⟩] [2]).2.1.length =
        (randomSampleCropSuccess 5 5 45 45 [[(1, 1, 1)]]
          [⟨0, 0, 10, 10⟩] [2]).2.2.length ∧
      (randomSampleCropSuccess 5 5 45 45 [[(1, 1, 1)]]
          [⟨0, 0, 10, 10⟩] [2]).2.1.zip
          (randomSampleCropSuccess 5 5 45 45 [[(1, 1, 1)]]
            [⟨0, 0, 10, 10⟩] [2]).2.2 =
        (selectMask (cropMask ⟨(5 : ℚ), (5 : ℚ), (45 : ℚ), (45 : ℚ)⟩
            [⟨0, 0, 10, 10⟩]) ([⟨0, 0, 10, 10⟩].zip [2])).map
          (Prod.map (adjustBox ⟨(5 : ℚ), (5 : ℚ), (45 : ℚ), (45 : ℚ)⟩) id)) :=
  crop_row_label_sync 5 5 45 45 8 [[(1, 1, 1)]] [[(1, 1, 1)]]
    [[(10 : ℚ), 10, 50, 10, 50, 50, 10, 50]] [1] [⟨0, 0, 10, 10⟩] [2] rfl

/-- C3: when the drawn mode is the entire-image mode (`None`) or the
object list is empty, `RandomSampleCropPoly` returns the input triple
unchanged, for any accepted rect and any inputs. -/
theorem cropPoly_identity (mode : Option (Option ℚ × Option ℚ))
    (rx1 ry1 rx2 ry2 cols : ℕ) (img : Image) (boxes : Geom)
    (labels : Labels) (h : mode = none ∨ boxes = []) :
    cropPolyCall mode rx1 ry1 rx2 ry2 cols img boxes labels =
      (img, boxes, labels) := by
  rcases h with h | h
  · simp [cropPolyCall, h]
  · subst h
    simp [cropPolyCall, boxesRect]

/-- C3 witness: the entire-image mode at concrete inputs. -/
theorem cropPoly_identity_witness :
    cropPolyCall none 5 5 45 45 8 [[(1, 1, 1)]]
      [[(10 : ℚ), 10, 50, 10, 50, 50, 10, 50]] [1] =
      ([[(1, 1, 1)]], [[(10 : ℚ), 10, 50, 10, 50, 50, 10, 50]], [1]) :=
  cropPoly_identity none 5 5 45 45 8 [[(1, 1, 1)]]
    [[(10 : ℚ), 10, 50, 10, 50, 50, 10, 50]] [1] (Or.inl rfl)

/-- C2 counterexample: the spec's example output is wrong.  Translating
the polygon [10,10,50,10,50,50,10,50] by the crop origin (5,5) subtracts
5 from every coordinate, so the y-coordinates 50 become 45, not 40: the
success branch does not produce [5,5,45,5,45,40,5,40]. -/
theorem cropPoly_example_counterexample :
    (cropPolySuccess 5 5 45 45 8 [[(0, 0, 0)]]
        [[(10 : ℚ), 10, 50, 10, 50, 50, 10, 50]] [1]).2.1 ≠
      [[(5 : ℚ), 5, 45, 5, 45, 40, 5, 40]] := by
  intro hEq
  simp only [cropPolySuccess, subTiled, mapIdxFrom, List.map_cons,
    List.map_nil, List.cons.injEq, and_true] at hEq
  norm_num at hEq

/-- C2 amended: the success branch of `RandomSampleCropPoly` with crop
rectangle [5,5,45,45] on the 4-point polygon [10,10,50,10,50,50,10,50]
keeps the object (no filtering, no clipping), returns the labels
unchanged, crops the image to the rectangle, and subtracts the crop
origin (5,5) from each coordinate pair, yielding [5,5,45,5,45,45,5,45]. -/
theorem cropPoly_example_amended (img : Image) (labels : Labels) :
    cropPolySuccess 5 5 45 45 8 img
        [[(10 : ℚ), 10, 50, 10, 50, 50, 10, 50]] labels =
      (cropImg 5 5 45 45 img, [[(5 : ℚ), 5, 45, 5, 45, 45, 5, 45]], labels) := by
  simp only [cropPolySuccess, subTiled, mapIdxFrom, List.map_cons, List.map_nil]
  norm_num

theorem getD_map_nil (f : List Pix → List ℚ) (hf : f [] = []) (l : Image)
    (i : ℕ) : (l.map f).getD i [] = f (l.getD i []) := by
  induction l generalizing i with
  | nil => simp [hf]
  | cons x xs ih =>
    cases i with
    | zero => simp
    | succ n => simp only [List.map_cons, List.getD_cons_succ]; exact ih n

theorem getD_map_zero (g : Pix → ℚ) (hg : g (0, 0, 0) = 0) (row : List Pix)
    (j : ℕ) : (row.map g).getD j 0 = g (row.getD j (0, 0, 0)) := by
  induction row generalizing j with
  | nil => simpa using hg.symm
  | cons x xs ih =>
    cases j with
    | zero => simp
    | succ n => simp only [List.map_cons, List.getD_cons_succ]; exact ih n

/-- C9: `ToTensor` returns the image with axes reordered from
(height, width, channel) to (channel, height, width) — entry (c, i, j)
of the permuted tensor is channel c of pixel (i, j) — and when geometry
and labels are present it passes them through with the same contents,
while with geometry absent it returns empty placeholders (`None`) for
both the geometry and the label outputs, whatever the label input. -/
theorem toTensor_spec (img : Image) (bs : Geom) (ls : Labels)
    (lab : Option Labels) :
    toTensorCall img none lab = some (permuteCHW img, none, none) ∧
    toTensorCall img (some bs) (some ls) =
      some (permuteCHW img, some bs, some ls) ∧
    ∀ (c : Fin 3) (i j : ℕ),
      (((permuteCHW img).getD c.val []).getD i []).getD j 0 =
        chan c (getPx img i j) := by
  refine ⟨rfl, rfl, ?_⟩
  intro c i j
  fin_cases c
  · show ((img.map (fun row => row.map (fun p => p.1))).getD i []).getD j 0 =
      ((img.getD i []).getD j (0, 0, 0)).1
    rw [getD_map_nil (fun row => row.map (fun p => p.1)) rfl,
      getD_map_zero (fun p => p.1) rfl]
  · show ((img.map (fun row => row.map (fun p => p.2.1))).getD i []).getD j 0 =
      ((img.getD i []).getD j (0, 0, 0)).2.1
    rw [getD_map_nil (fun row => row.map (fun p => p.2.1)) rfl,
      getD_map_zero (fun p => p.2.1) rfl]
  · show ((img.map (fun row => row.map (fun p => p.2.2))).getD i []).getD j 0 =
      ((img.getD i []).getD j (0, 0, 0)).2.2
    rw [getD_map_nil (fun row => row.map (fun p => p.2.2)) rfl,
      getD_map_zero (fun p => p.2.2) rfl]

theorem zipWith_tile4_eight (sx sy : ℚ) (r : List ℚ) (h : r.length = 8) :
    r.zipWith (· * ·) (tile4 [sx, sy]) =
    mapIdxFrom (fun k x => x * (if k % 2 = 0 then sx else sy)) 0 r := by
  obtain ⟨a, b, c, d, e, f, g, k, rfl⟩ :
      ∃ a b c d e f g k, r = [a, b, c, d, e, f, g, k] := by
    rcases r with _ | ⟨a, _ | ⟨b, _ | ⟨c, _ | ⟨d, _ | ⟨e, _ | ⟨f, _ | ⟨g,
      _ | ⟨k, rest⟩⟩⟩⟩⟩⟩⟩⟩ <;> simp_all
  simp [tile4, mapIdxFrom]

/-- C4 counterexample: `Resize` does not support 4-coordinate boxes.  On
a 2x2 image with target size 4 and a single box [0,0,10,10], the
geometry multiply broadcasts a 4-column matrix against the 8-entry tiled
scale vector, a shape mismatch that raises: no scaled output is
produced. -/
theorem resize_box4_counterexample :
    resizeCall (fun i _ => i) 4 [[(1, 1, 1), (1, 1, 1)], [(1, 1, 1), (1, 1, 1)]]
      (some [[(0 : ℚ), 0, 10, 10]]) 4 (some [1]) = none := by
  rfl

/-- C4 amended: on 8-coordinate polygon geometry (the only column count
the 8-entry tiled scale vector broadcasts against; 4-coordinate boxes
raise instead), `Resize(size)` multiplies every x-coordinate of every
row by `size/w` and every y-coordinate by `size/h` — the scale pair
tiled across all four coordinate pairs — and returns the image resampled
by `cv2.resize` at target `(size, size)` together with the untouched
labels. -/
theorem resize_scales_polygons (cvR : Image → ℕ → Image) (size : ℕ)
    (img : Image) (bs : Geom) (lab : Option Labels)
    (hrows : ∀ r ∈ bs, r.length = 8) :
    resizeCall cvR size img (some bs) 8 lab =
      some (cvR img size,
        some (bs.map (mapIdxFrom (fun k x => x *
          (if k % 2 = 0 then (size : ℚ) / (width img)
           else (size : ℚ) / (height img))) 0)),
        lab) := by
  have hv : (tile4 [(size : ℚ) / (width img), (size : ℚ) / (height img)]).length = 8 :=
    rfl
  have hmap : bs.map (fun r => r.zipWith (· * ·)
      (tile4 [(size : ℚ) / (width img), (size : ℚ) / (height img)])) =
      bs.map (mapIdxFrom (fun k x => x *
        (if k % 2 = 0 then (size : ℚ) / (width img)
         else (size : ℚ) / (height img))) 0) :=
    List.map_congr_left (fun r hr => zipWith_tile4_eight _ _ r (hrows r hr))
  simp only [resizeCall, npMulVec, hv, if_pos rfl, hmap]
  simp

/-- C4 amended, witness: a concrete polygon on a 2x2 image scaled to
size 4. -/
theorem resize_scales_polygons_witness :
    resizeCall (fun i _ => i) 4 [[(1, 1, 1), (1, 1, 1)], [(1, 1, 1), (1, 1, 1)]]
      (some [[(10 : ℚ), 10, 50, 10, 50, 50, 10, 50]]) 8 (some [1]) =
      some ((fun (i : Image) (_ : ℕ) => i)
          [[(1, 1, 1), (1, 1, 1)], [(1, 1, 1), (1, 1, 1)]] 4,
        some ([[(10 : ℚ), 10, 50, 10, 50, 50, 10, 50]].map
          (mapIdxFrom (fun k x => x *
            (if k % 2 = 0 then (4 : ℚ) /
              (width [[(1, 1, 1), (1, 1, 1)], [(1, 1, 1), (1, 1, 1)]])
             else (4 : ℚ) /
              (height [[(1, 1, 1), (1, 1, 1)], [(1, 1, 1), (1, 1, 1)]]))) 0)),
        some [1]) :=
  resize_scales_polygons (fun i _ => i) 4
    [[(1, 1, 1), (1, 1, 1)], [(1, 1, 1), (1, 1, 1)]]
    [[(10 : ℚ), 10, 50, 10, 50, 50, 10, 50]] (some [1])
    (by intro r hr; simp_all)

theorem getD_range_map (n : ℕ) (f : ℕ → α) (i : ℕ) (d : α) :
    (((List.range n).map f).getD i d) = if i < n then f i else d := by
  rw [List.getD_eq_getElem?_getD, List.getElem?_map]
  by_cases h : i < n
  · rw [List.getElem?_range h]
    simp [h]
  · rw [List.getElem?_eq_none (by simpa using h)]
    simp [h]

theorem mapIdxFrom_if_lt (f : ℕ → ℚ → ℚ) (lim : ℕ) (r : List ℚ) :
    ∀ (s : ℕ), s + r.length ≤ lim →
      mapIdxFrom (fun k x => if k < lim then f k x else x) s r =
      mapIdxFrom f s r := by
  induction r with
  | nil => intro s _; rfl
  | cons x xs ih =>
    intro s hs
    simp only [List.length_cons] at hs
    simp only [mapIdxFrom]
    rw [if_pos (by omega), ih (s + 1) (by omega)]

/-- C8: `Expand`'s active branch with ratio 1.2 and truncated offset
(left, top) = (5, 3) on a 100x100 image builds a 120x120 canvas that
holds the original image content exactly at rows 3..102 and columns
5..104 (pixel (3+i, 5+j) of the canvas is pixel (i, j) of the image),
holds the configured mean everywhere else, adds 5 to every x-coordinate
and 3 to every y-coordinate of every geometry row — for any even column
count, covering both 4-coordinate boxes and 8-coordinate polygons
(`num_pt = cols/2` tiles the offset over all pairs) — and returns the
labels unchanged. -/
theorem expand_example (mean : Pix) (cols : ℕ) (img : Image) (boxes : Geom)
    (labels : Labels) (hh : height img = 100) (hw : width img = 100)
    (hcols : cols % 2 = 0) (hrows : ∀ r ∈ boxes, r.length = cols) :
    (∀ i j, i < 100 → j < 100 →
      getPx (expandCall false (6/5) 5 3 mean cols img boxes labels).1
        (3 + i) (5 + j) = getPx img i j) ∧
    (∀ i j, i < 120 → j < 120 → ¬(3 ≤ i ∧ i < 103 ∧ 5 ≤ j ∧ j < 105) →
      getPx (expandCall false (6/5) 5 3 mean cols img boxes labels).1 i j =
        mean) ∧
    (expandCall false (6/5) 5 3 mean cols img boxes labels).2.1 =
      boxes.map (mapIdxFrom (fun k x => x + (if k % 2 = 0 then 5 else 3)) 0) ∧
    (expandCall false (6/5) 5 3 mean cols img boxes labels).2.2 = labels := by
  have hcast : ((100 : ℕ) : ℚ) * (6 / 5) = ((120 : ℕ) : ℚ) := by
    push_cast
    norm_num
  have hfh : (Int.floor ((height img : ℚ) * (6 / 5))).toNat = 120 := by
    rw [hh, hcast, Int.floor_natCast]
    rfl
  have hfw : (Int.floor ((width img : ℚ) * (6 / 5))).toNat = 120 := by
    rw [hw, hcast, Int.floor_natCast]
    rfl
  have hcall : expandCall false (6/5) 5 3 mean cols img boxes labels =
      (expandCanvas 120 120 3 5 mean img,
       boxes.map (addTiled ((5 : ℕ) : ℚ) ((3 : ℕ) : ℚ) (2 * (cols / 2))),
       labels) := by
    simp only [expandCall, Bool.false_eq_true, if_false, hfh, hfw]
  rw [hcall]
  refine ⟨?_, ?_, ?_, rfl⟩
  · intro i j hi hj
    simp only [getPx, expandCanvas, getD_range_map]
    rw [if_pos (show 3 + i < 120 by omega)]
    simp only [getD_range_map]
    rw [if_pos (show 5 + j < 120 by omega), hh, hw]
    split_ifs with hc
    · rw [show 3 + i - 3 = i from by omega, show 5 + j - 5 = j from by omega]
    · exact absurd (by omega) hc
  · intro i j hi hj hnot
    simp only [getPx, expandCanvas, getD_range_map]
    rw [if_pos hi]
    simp only [getD_range_map]
    rw [if_pos hj, hh, hw]
    split_ifs with hc
    · exfalso
      omega
    · rfl
  · refine List.map_congr_left (fun r hr => ?_)
    have hrc := hrows r hr
    simp only [addTiled]
    rw [mapIdxFrom_if_lt
      (fun k x => x + (if k % 2 = 0 then ((5 : ℕ) : ℚ) else ((3 : ℕ) : ℚ)))
      (2 * (cols / 2)) r 0 (by omega)]
    norm_num

/-- C8 witness: the expansion at a concrete 100x100 image with a
4-coordinate box row and one label. -/
theorem expand_example_witness :
    (∀ i j, i < 100 → j < 100 →
      getPx (expandCall false (6/5) 5 3 ((104 : ℚ), 117, 123) 4
          (List.replicate 100 (List.replicate 100 ((0 : ℚ), 0, 0)))
          [[(10 : ℚ), 10, 50, 50]] [1]).1
        (3 + i) (5 + j) =
        getPx (List.replicate 100 (List.replicate 100 ((0 : ℚ), 0, 0))) i j) ∧
    (∀ i j, i < 120 → j < 120 → ¬(3 ≤ i ∧ i < 103 ∧ 5 ≤ j ∧ j < 105) →
      getPx (expandCall false (6/5) 5 3 ((104 : ℚ), 117, 123) 4
          (List.replicate 100 (List.replicate 100 ((0 : ℚ), 0, 0)))
          [[(10 : ℚ), 10, 50, 50]] [1]).1 i j =
        ((104 : ℚ), 117, 123)) ∧
    (expandCall false (6/5) 5 3 ((104 : ℚ), 117, 123) 4
        (List.replicate 100 (List.replicate 100 ((0 : ℚ), 0, 0)))
        [[(10 : ℚ), 10, 50, 50]] [1]).2.1 =
      [[(10 : ℚ), 10, 50, 50]].map
        (mapIdxFrom (fun k x => x + (if k % 2 = 0 then 5 else 3)) 0) ∧
    (expandCall false (6/5) 5 3 ((104 : ℚ), 117, 123) 4
        (List.replicate 100 (List.replicate 100 ((0 : ℚ), 0, 0)))
        [[(10 : ℚ), 10, 50, 50]] [1]).2.2 = [1] :=
  expand_example ((104 : ℚ), 117, 123) 4
    (List.replicate 100 (List.replicate 100 ((0 : ℚ), 0, 0)))
    [[(10 : ℚ), 10, 50, 50]] [1] rfl rfl rfl
    (by intro r hr; simp_all)

end Augment
